import Mathlib

set_option maxHeartbeats 1000000

/-
Verification of the Streaming Session Runtime of the chat client
(src/app/(main)/chat/[chatId]/runtime.ts).

The definitions below are a shallow embedding of the runtime code:
 - JavaScript/JSON values are modelled by `JsVal`;
 - the per-payload tool-call merge shared (verbatim) by the normal-mode
   callback (runtime.ts lines 358-431) and the resume-mode callback
   (lines 140-212) is `applyToolCallPayload`;
 - the accumulated stream state and the two content renderers
   (the normal-mode yield at lines 483-502 and `pushToQueue` at lines
   97-124) are `AccState`, `renderNormal`, `renderResume`;
 - the normal-mode generator loop and its abort handling
   (lines 297-559) are the step machine `runSteps` / `streamNormalRun`;
 - the resume-mode queue-draining generator (lines 87-242) is `resumeRun`;
 - the run() dispatch prelude (lines 76-294) is `runDispatch`;
 - history conversion `apiToolCallToPart` (lines 565-593) and
   `dedupeToolCalls` (lines 597-622) are embedded under the same names.
-/

namespace PotpieRuntime

/-- Model of a parsed JavaScript/JSON value as it flows through the
runtime (`tool_call_details`, its `arguments` field, `tool_response`).
`undef` models the JavaScript value `undefined` and `nullv` models `null`. -/
inductive JsVal where
  | undef : JsVal
  | nullv : JsVal
  | boolv : Bool → JsVal
  | num : Int → JsVal
  | str : String → JsVal
  | obj : List (String × JsVal) → JsVal

/-- JavaScript test `typeof v === "object" && v !== null` (arrays are not
needed by the runtime and are not modelled). -/
def JsVal.isObjNonNull : JsVal → Bool
  | .obj _ => true
  | _ => false

/-- JavaScript test `typeof v === "string"`. -/
def JsVal.isStr : JsVal → Bool
  | .str _ => true
  | _ => false

/-- JavaScript test `v === undefined`. -/
def JsVal.isUndef : JsVal → Bool
  | .undef => true
  | _ => false

/-- JavaScript nullish coalescing `v ?? w`. -/
def JsVal.nullish : JsVal → JsVal → JsVal
  | .undef, w => w
  | .nullv, w => w
  | v, _ => v

/-- JavaScript optional-chained field access `v?.f`: a field lookup on an
object, `undefined` on anything else (including a missing field). -/
def JsVal.optField : JsVal → String → JsVal
  | .obj fs, f => (fs.lookup f).getD .undef
  | _, _ => .undef

mutual
/-- Model of `JSON.stringify(v, null, 2)` up to whitespace and string
escaping (the runtime only ever stores the resulting string, it never
inspects it). `undefined` never reaches this function in the embedded
code paths; it is mapped to the literal text "undefined". -/
def jsonStringify : JsVal → String
  | .undef => "undefined"
  | .nullv => "null"
  | .boolv b => if b then "true" else "false"
  | .num n => toString n
  | .str s => "\"" ++ s ++ "\""
  | .obj fs => "\x7b" ++ jsonStringifyFields fs ++ "\x7d"

/-- Serialises the field list of an object, comma separated. -/
def jsonStringifyFields : List (String × JsVal) → String
  | [] => ""
  | (k, v) :: rest =>
      "\"" ++ k ++ "\":" ++ jsonStringify v ++
        (if rest.isEmpty then "" else "," ++ jsonStringifyFields rest)
end

/-- JavaScript `Map.prototype.set` on a map represented as an insertion
ordered association list: replaces the value in place if the key is
present (keeping its position), otherwise appends at the end. -/
def mapSet {α : Type} : List (String × α) → String → α → List (String × α)
  | [], k, v => [(k, v)]
  | (k', v') :: rest, k, v =>
      if k' = k then (k', v) :: rest else (k', v') :: mapSet rest k v

/-- The keys of an association-list map, in insertion order. -/
def mapKeys {α : Type} (m : List (String × α)) : List String :=
  m.map (fun kv => kv.1)

/-- `ToolCallResult` (runtime.ts lines 30-36): the event-type / response /
details snapshot taken from one raw tool-call payload. -/
structure ToolCallResult where
  event_type : String
  response : JsVal
  details : JsVal

/-- `StreamingToolCallPart` (runtime.ts lines 38-42): one reconciled
tool-call record. The optional TypeScript fields `streamState`, `result`
and `isError` are absent (`none`) on a freshly built record. -/
structure StreamingToolCallPart where
  toolCallId : String
  toolName : String
  args : JsVal
  argsText : String
  streamState : Option ToolCallResult := none
  result : Option ToolCallResult := none
  isError : Option Bool := none

/-- One successfully parsed raw tool-call payload, after the destructuring
`const { call_id, tool_name, tool_call_details, event_type, tool_response }
= parsed` (runtime.ts lines 146-152 and 365-371). -/
structure RawToolCallPayload where
  call_id : String
  tool_name : String
  tool_call_details : JsVal
  event_type : String
  tool_response : JsVal

/-- The per-payload tool-call merge. This block is textually identical in
the resume-mode callback (runtime.ts lines 154-208) and the normal-mode
callback (lines 373-427); it is embedded once. -/
def applyToolCallPayload (acc : List (String × StreamingToolCallPart))
    (p : RawToolCallPayload) : List (String × StreamingToolCallPart) :=
  let rawArgs := p.tool_call_details.optField "arguments"
  let previous : StreamingToolCallPart :=
    (acc.lookup p.call_id).getD
      { toolCallId := p.call_id
        toolName := p.tool_name
        args := if rawArgs.isObjNonNull then rawArgs else .obj []
        argsText :=
          match rawArgs with
          | .str s => s
          | _ => jsonStringify (rawArgs.nullish (.obj [])) }
  let argsValue :=
    if rawArgs.isUndef then previous.args
    else if rawArgs.isObjNonNull then rawArgs
    else JsVal.obj []
  let argsTextValue :=
    if rawArgs.isUndef then previous.argsText
    else
      match rawArgs with
      | .str s => s
      | _ => jsonStringify rawArgs
  let streamState : ToolCallResult :=
    { event_type := p.event_type
      response := p.tool_response
      details := p.tool_call_details }
  let next : StreamingToolCallPart :=
    if p.event_type = "result" ∨ p.event_type = "error" then
      { previous with
          streamState := some streamState
          toolName := p.tool_name
          args := argsValue
          argsText := argsTextValue
          result := some streamState
          isError := some (p.event_type == "error") }
    else
      { previous with
          streamState := some streamState
          toolName := p.tool_name
          args := argsValue
          argsText := argsTextValue
          result := none
          isError := some false }
  mapSet acc p.call_id next

/-- One entry of the callback's `tool_calls` array. `none` models an entry
whose `JSON.parse` (or destructuring) throws; the surrounding
`try/catch` skips it without touching the map (runtime.ts lines
209-211 and 428-430). -/
def applyRawToolCall (acc : List (String × StreamingToolCallPart)) :
    Option RawToolCallPayload → List (String × StreamingToolCallPart)
  | none => acc
  | some p => applyToolCallPayload acc p

/-- One invocation of the backend progress callback (runtime.ts lines
344-349 resp. 135): cumulative `message` text, the raw `tool_calls`
batch, unused `citations` (normal mode only) and the optional cumulative
`thinking` text. `thinking = none` models the argument being
`undefined`; `thinking = some none` models `null`. -/
structure RawStreamEvent where
  message : String
  tool_calls : List (Option RawToolCallPayload)
  citations : List String := []
  thinking : Option (Option String) := none

/-- The accumulators of one streaming run (runtime.ts lines 298-300 resp.
127-128). -/
structure AccState where
  accumulatedText : String := ""
  accumulatedThinking : Option String := none
  accumulatedToolCalls : List (String × StreamingToolCallPart) := []

/-- The accumulators at the start of a run. -/
def initAcc : AccState := {}

/-- The body of the progress callback (runtime.ts lines 352-431 resp.
136-212): stores the cumulative message, updates the thinking text only
when the argument was not `undefined` (`accumulatedThinking = thinking
?? null`), and folds every raw tool-call payload into the map. -/
def applyStreamEvent (s : AccState) (e : RawStreamEvent) : AccState :=
  { accumulatedText := e.message
    accumulatedThinking :=
      match e.thinking with
      | none => s.accumulatedThinking
      | some t => t
    accumulatedToolCalls := e.tool_calls.foldl applyRawToolCall s.accumulatedToolCalls }

/-- Folds a whole sequence of callback invocations. -/
def applyStreamEvents (s : AccState) (events : List RawStreamEvent) : AccState :=
  events.foldl applyStreamEvent s

/-- One segment of a `ContentUpdate` handed to the consumer. -/
inductive ContentPart where
  | reasoning (text : String)
  | toolCall (part : StreamingToolCallPart)
  | text (t : String)

/-- The normal-mode content snapshot (runtime.ts lines 483-502, repeated
verbatim at 513-532): reasoning only when `accumulatedThinking` is
truthy, then every map record in insertion order, then the text segment
only when `accumulatedText` is truthy (non-empty). -/
def renderNormal (s : AccState) : List ContentPart :=
  (match s.accumulatedThinking with
   | some t => if t != "" then [ContentPart.reasoning t] else []
   | none => []) ++
  s.accumulatedToolCalls.map (fun kv => ContentPart.toolCall kv.2) ++
  (if s.accumulatedText != "" then [ContentPart.text s.accumulatedText] else [])

/-- The `hasContent` test guarding the final normal-mode yield
(runtime.ts lines 508-511): `accumulatedThinking ||
accumulatedToolCalls.size > 0 || accumulatedText` as a truthiness test. -/
def hasContent (s : AccState) : Bool :=
  (match s.accumulatedThinking with
   | some t => t != ""
   | none => false) ||
  !s.accumulatedToolCalls.isEmpty || s.accumulatedText != ""

/-- The resume-mode content snapshot built by `pushToQueue` (runtime.ts
lines 92-124): reasoning only when the thinking text is truthy and has a
non-empty trim, then the map records whose `toolCallId` and `toolName`
are truthy, then always a text segment (`accumulatedText || ""`). -/
def renderResume (message : String) (m : List (String × StreamingToolCallPart))
    (thinking : Option String) : List ContentPart :=
  (match thinking with
   | some t => if t.trim != "" then [ContentPart.reasoning t] else []
   | none => []) ++
  ((m.filter (fun kv => kv.2.toolCallId != "" && kv.2.toolName != "")).map
    (fun kv => ContentPart.toolCall kv.2)) ++
  [ContentPart.text message]

/-- `pushToQueue` applied to the current accumulators (runtime.ts line
215: `pushToQueue(message, accumulatedToolCalls, accumulatedThinking)`
where `message` is the cumulative text of the current event). -/
def renderResumeState (s : AccState) : List ContentPart :=
  renderResume s.accumulatedText s.accumulatedToolCalls s.accumulatedThinking

/-- The resume-mode run from a given accumulator state (runtime.ts lines
87-242): every callback invocation applies its event and pushes one full
snapshot into an unbounded FIFO queue (`pushToQueue`, line 215), and the
generator loop (lines 229-241) drains the whole queue before
terminating, so the yielded sequence is exactly one snapshot per event,
in order. -/
def resumeRunFrom (s : AccState) : List RawStreamEvent → List (List ContentPart)
  | [] => []
  | e :: rest =>
      let s' := applyStreamEvent s e
      renderResumeState s' :: resumeRunFrom s' rest

/-- The resume-mode run started with fresh accumulators (runtime.ts lines
127-128). -/
def resumeRun (events : List RawStreamEvent) : List (List ContentPart) :=
  resumeRunFrom initAcc events

/-- The mutable state of the normal-mode generator `streamAsyncIterable`
(runtime.ts lines 297-304 and 312-327): the accumulators, the
`hasUpdate` flag, the `aborted` flag, plus a count of
`ChatService.stopMessage` invocations for the cancellation claim. -/
structure GenState where
  acc : AccState := initAcc
  hasUpdate : Bool := false
  aborted : Bool := false
  stopCalls : Nat := 0

/-- Generator state at the start of a normal-mode run. -/
def initGen : GenState := {}

/-- One scheduling step of the cooperative event loop while the backend
call is outstanding: a progress callback fires, the generator loop runs
one iteration, or the abort signal fires. -/
inductive Step where
  | ev (e : RawStreamEvent)
  | tick
  | abort

/-- The progress callback (runtime.ts lines 344-443): returns immediately
when aborted (line 350), otherwise applies the event and raises
`hasUpdate` (line 434). -/
def stepEv (g : GenState) (e : RawStreamEvent) : GenState :=
  if g.aborted then g
  else { g with acc := applyStreamEvent g.acc e, hasUpdate := true }

/-- One iteration of the yield loop (runtime.ts lines 465-504): breaks
without yielding when aborted (line 475), otherwise yields the current
snapshot and clears `hasUpdate` when an update is pending (lines
479-503). -/
def stepTick (g : GenState) : GenState × List (List ContentPart) :=
  if g.aborted then (g, [])
  else if g.hasUpdate then ({ g with hasUpdate := false }, [renderNormal g.acc])
  else (g, [])

/-- `handleAbort` (runtime.ts lines 313-327): a no-op when already
aborted, otherwise sets the flag and fires `ChatService.stopMessage`
exactly once. -/
def stepAbort (g : GenState) : GenState :=
  if g.aborted then g
  else { g with aborted := true, stopCalls := g.stopCalls + 1 }

/-- Runs an interleaving of callback firings, loop iterations and abort
deliveries, collecting every yielded snapshot. -/
def runSteps : GenState → List Step → GenState × List (List ContentPart)
  | g, [] => (g, [])
  | g, .ev e :: rest => runSteps (stepEv g e) rest
  | g, .tick :: rest =>
      let p := stepTick g
      let r := runSteps p.1 rest
      (r.1, p.2 ++ r.2)
  | g, .abort :: rest => runSteps (stepAbort g) rest

/-- The observable outcome of one normal-mode run: the yielded snapshots,
how often the backend stop endpoint was notified, and the error the
consumer sees (if any). -/
structure NormalRunOutcome where
  yields : List (List ContentPart)
  stopCalls : Nat
  error : Option String

/-- The whole normal-mode run (runtime.ts lines 297-559). `steps` is the
interleaving observed while the backend call is outstanding and
`settleError` is how `ChatService.streamMessage` settles (`none` =
resolves, `some e` = rejects with `e`). On normal settlement the loop
performs one last `hasUpdate` check (the race at lines 467-472 resolves
via `streamPromise`, lines 479-503 still run) and then the final yield
guarded by `hasContent` (lines 507-534). On rejection the error is
rethrown to the consumer unless the run was aborted (lines 535-538 and
553-559); an aborted run never surfaces an error and never yields past
the abort. -/
def streamNormalRun (steps : List Step) (settleError : Option String) :
    NormalRunOutcome :=
  let r := runSteps initGen steps
  match settleError with
  | some e =>
      if r.1.aborted then { yields := r.2, stopCalls := r.1.stopCalls, error := none }
      else { yields := r.2, stopCalls := r.1.stopCalls, error := some e }
  | none =>
      let p := stepTick r.1
      let finalYield :=
        if !p.1.aborted && hasContent p.1.acc then [renderNormal p.1.acc] else []
      { yields := r.2 ++ p.2 ++ finalYield
        stopCalls := p.1.stopCalls
        error := none }

/-- The snapshots published after the backend call settles normally: the
final `hasUpdate` check of the loop followed by the `hasContent`-guarded
final yield; this names the tail of `streamNormalRun`'s `none` branch. -/
def postludeYields (g : GenState) : List (List ContentPart) :=
  (stepTick g).2 ++
    (if !(stepTick g).1.aborted && hasContent (stepTick g).1.acc then
      [renderNormal (stepTick g).1.acc]
    else [])

/-- `StreamingState` (runtime.ts lines 54-60). -/
structure StreamingState where
  sessionId : Option String
  currentCursor : String
  isStreaming : Bool
  isReconnecting : Bool
  reconnectAttempts : Nat

/-- `ResumeSessionInfo` (runtime.ts lines 48-51): the one-shot
{sessionId, cursor} handoff. -/
structure ResumeSessionInfo where
  sessionId : String
  cursor : String

/-- One part of an incoming thread message's content. -/
inductive InPart where
  | text (t : String)
  | image (url : String)
  | other (tag : String)

/-- One attachment of an incoming user message; `file = none` models an
attachment object without a `file` property. -/
structure InAttachment where
  typ : String
  file : Option String

/-- An incoming thread message as seen by the adapter's `run`. -/
structure InMessage where
  role : String
  content : List InPart
  attachments : List InAttachment := []

/-- The backend call issued by the dispatch prelude. The resume
constructor carries only the conversation id, session id and cursor —
it has no message-text field at all. -/
inductive BackendCall where
  | resumeWithCursor (chatId sessionId cursor : String)
  | streamMessage (chatId text : String) (selectedNodes : List JsVal)
      (images : List String) (existingSessionId : Option String)

/-- The state after the dispatch prelude: which backend call starts, the
resume ref after its read-and-clear, and the streaming state after
initialisation. -/
structure DispatchResult where
  backendCall : BackendCall
  resumeRefAfter : Option ResumeSessionInfo
  streamingAfter : StreamingState

/-- Image extraction from the last user message (runtime.ts lines
275-289): only when multimodal is enabled, keep the `file` of each
attachment of type "image" that has one. -/
def extractImages (multimodal : Bool) (msg : InMessage) : List String :=
  if multimodal then
    msg.attachments.filterMap (fun a => if a.typ = "image" then a.file else none)
  else []

/-- The dispatch prelude of `run` (runtime.ts lines 76-294): the resume
ref is checked first and, when set, consumed (cleared) and dispatched to
`ChatService.resumeWithCursor(chatId, sessionId, cursor, ...)` with the
streaming state untouched (lines 79-243). Otherwise the background-task
guard throws (lines 247-250), then the last message must be a user
message with a text part (lines 253-261), the streaming state is reset
(`isStreaming := true`, `currentCursor := "0-0"`, `sessionId := null`,
lines 292-294) and `ChatService.streamMessage` is issued with the
just-cleared `sessionId || undefined` (line 444). -/
def runDispatch (chatId : String) (resumeRef : Option ResumeSessionInfo)
    (backgroundActive : Bool) (st : StreamingState) (multimodal : Bool)
    (messages : List InMessage) (selectedNodes : List JsVal) :
    Except String DispatchResult :=
  match resumeRef with
  | some rs =>
      .ok { backendCall := .resumeWithCursor chatId rs.sessionId rs.cursor
            resumeRefAfter := none
            streamingAfter := st }
  | none =>
      if backgroundActive then .error "Background task is active"
      else
        match messages.getLast? with
        | none => .error "No user message found"
        | some lastMessage =>
            if lastMessage.role != "user" then .error "No user message found"
            else
              match lastMessage.content.find?
                  (fun c => match c with | .text _ => true | _ => false) with
              | some (.text t) =>
                  let st2 : StreamingState :=
                    { st with
                        isStreaming := true
                        currentCursor := "0-0"
                        sessionId := none }
                  .ok { backendCall := .streamMessage chatId t selectedNodes
                          (extractImages multimodal lastMessage) st2.sessionId
                        resumeRefAfter := none
                        streamingAfter := st2 }
              | _ => .error "Message must contain text"

/-- `ToolCall` as used by the history path (`dedupeToolCalls`,
`apiToolCallToPart`); the optional `is_complete` is `none` when absent. -/
structure ToolCall where
  call_id : String
  tool_name : String
  tool_call_details : JsVal
  event_type : String
  tool_response : JsVal
  is_complete : Option Bool := none

/-- `apiToolCallToPart` (runtime.ts lines 565-593): converts one
history-loaded tool call into a part. Its `isError` is the literal
`false`, regardless of `tc.event_type`. -/
def apiToolCallToPart (tc : ToolCall) : StreamingToolCallPart :=
  let rawArgs := tc.tool_call_details.optField "arguments"
  let args : JsVal := if rawArgs.isObjNonNull then rawArgs else .obj []
  let argsText : String :=
    match rawArgs with
    | .str s => s
    | _ => jsonStringify (rawArgs.nullish (.obj []))
  let result : ToolCallResult :=
    { event_type := tc.event_type
      response := tc.tool_response
      details :=
        match tc.tool_call_details with
        | .obj fs =>
            .obj (mapSet fs "summary"
              (((fs.lookup "summary").getD .undef).nullish (.str "")))
        | _ => .obj [("summary", .str "")] }
  { toolCallId := tc.call_id
    toolName := tc.tool_name
    args := args
    argsText := argsText
    streamState := none
    result := some result
    isError := some false }

/-- The merge `{...existing, ...tc, tool_response: tc.tool_response,
tool_call_details: tc.tool_call_details ?? existing.tool_call_details,
is_complete: tc.is_complete ?? existing.is_complete}` (runtime.ts lines
611-617). -/
def mergeToolCall (existing tc : ToolCall) : ToolCall :=
  { call_id := tc.call_id
    tool_name := tc.tool_name
    tool_call_details := tc.tool_call_details.nullish existing.tool_call_details
    event_type := tc.event_type
    tool_response := tc.tool_response
    is_complete :=
      match tc.is_complete with
      | some b => some b
      | none => existing.is_complete }

/-- `dedupeToolCalls` (runtime.ts lines 597-622): history replay keeps one
entry per call id in first-seen order; a later event overwrites an
earlier one only when its type is "result", "delegation_result" or
"error". -/
def dedupeToolCalls (toolCalls : List ToolCall) : List ToolCall :=
  (toolCalls.foldl
    (fun byId tc =>
      match byId.lookup tc.call_id with
      | none => mapSet byId tc.call_id tc
      | some existing =>
          if tc.event_type = "result" ∨ tc.event_type = "delegation_result" ∨
              tc.event_type = "error" then
            mapSet byId tc.call_id (mergeToolCall existing tc)
          else byId)
    ([] : List (String × ToolCall))).map (fun kv => kv.2)

/-- Whether a backend call carries the user's message text (only the
new-message path does; the resume path has no text field). -/
def carriesMessageText : BackendCall → Bool
  | .streamMessage _ _ _ _ _ => true
  | .resumeWithCursor _ _ _ => false

/-- The call identifiers of the successfully parsed payloads of one
`tool_calls` batch, in order. -/
def payloadIds (ps : List (Option RawToolCallPayload)) : List String :=
  ps.filterMap (fun op => op.map (fun p => p.call_id))

/-- The call identifiers delivered by one raw event. -/
def eventIds (e : RawStreamEvent) : List String := payloadIds e.tool_calls

/-- All call identifiers delivered by a sequence of raw events, in
delivery order. -/
def eventsIds (events : List RawStreamEvent) : List String :=
  (events.map eventIds).flatten

/-- Keeps the first occurrence of each element, preserving order, starting
from an already-collected list: the first-seen order of call ids. -/
def firstSeenFrom (acc : List String) (ids : List String) : List String :=
  ids.foldl (fun a i => if i ∈ a then a else a ++ [i]) acc

/-- First-seen order of a list of call identifiers. -/
def firstSeen (ids : List String) : List String := firstSeenFrom [] ids

/-- The raw events of a schedule, in delivery order. -/
def eventsOf : List Step → List RawStreamEvent
  | [] => []
  | .ev e :: rest => e :: eventsOf rest
  | .tick :: rest => eventsOf rest
  | .abort :: rest => eventsOf rest

/-- Whether a schedule delivers at least one raw event. -/
def hasEv : List Step → Bool
  | [] => false
  | .ev _ :: _ => true
  | .tick :: rest => hasEv rest
  | .abort :: rest => hasEv rest

/-- Whether a schedule fires the cancellation signal. -/
def hasAbort : List Step → Bool
  | [] => false
  | .abort :: _ => true
  | .ev _ :: rest => hasAbort rest
  | .tick :: rest => hasAbort rest

/-- Whether a content segment is a tool-call record. -/
def isToolPart : ContentPart → Bool
  | .toolCall _ => true
  | _ => false

/-- Checks the hard ordering contract of a `ContentUpdate`: an optional
reasoning segment, then only tool-call records, then an optional final
text segment, and nothing else in any other position. -/
def wellOrdered (cs : List ContentPart) : Bool :=
  let rest :=
    match cs with
    | ContentPart.reasoning _ :: r => r
    | _ => cs
  match rest.dropWhile isToolPart with
  | [] => true
  | [ContentPart.text _] => true
  | _ => false

/-- The call identifiers of the tool-call records of a `ContentUpdate`, in
display order. -/
def toolIdsIn (cs : List ContentPart) : List String :=
  cs.filterMap (fun c =>
    match c with
    | ContentPart.toolCall p => some p.toolCallId
    | _ => none)

/-- The text segments of a `ContentUpdate`, in order. -/
def textSegments (cs : List ContentPart) : List String :=
  cs.filterMap (fun c =>
    match c with
    | ContentPart.text t => some t
    | _ => none)

/-- Every record of the map is stored under its own `toolCallId` (true of
every map the reconciler builds, since a record is always `set` under
the `call_id` it was built from). -/
def idsConsistent (m : List (String × StreamingToolCallPart)) : Prop :=
  ∀ kv ∈ m, kv.2.toolCallId = kv.1

/-- Every record of the map has a truthy (non-empty) call id and tool
name, so the resume-mode renderer's filter keeps all of them. -/
def namesOk (m : List (String × StreamingToolCallPart)) : Prop :=
  ∀ kv ∈ m, kv.2.toolCallId ≠ "" ∧ kv.2.toolName ≠ ""

/-- A raw event is well formed when every successfully parsed payload in
it carries a non-empty call identifier and tool name. -/
def eventWF (e : RawStreamEvent) : Prop :=
  ∀ p : RawToolCallPayload, some p ∈ e.tool_calls →
    p.call_id ≠ "" ∧ p.tool_name ≠ ""

/- Concrete sample inputs used by the counterexamples and witnesses. -/

/-- Sample payload: a "call" event for id "a" with structured arguments. -/
def pCallA : RawToolCallPayload :=
  { call_id := "a"
    tool_name := "search"
    tool_call_details := .obj [("arguments", .obj [("x", .num 1)])]
    event_type := "call"
    tool_response := .undef }

/-- Sample payload: a "result" event for id "a" with response "42". -/
def pResultA : RawToolCallPayload :=
  { call_id := "a"
    tool_name := "search"
    tool_call_details := .undef
    event_type := "result"
    tool_response := .str "42" }

/-- Sample payload: a "delegation_result" event for id "a". -/
def pDelegationA : RawToolCallPayload :=
  { call_id := "a"
    tool_name := "search"
    tool_call_details := .undef
    event_type := "delegation_result"
    tool_response := .str "done" }

/-- Sample payload: an intermediate progress event for id "a". -/
def pProgressA : RawToolCallPayload :=
  { call_id := "a"
    tool_name := "search"
    tool_call_details := .undef
    event_type := "progress"
    tool_response := .undef }

/-- Sample raw event delivering the "call" payload for id "a". -/
def evCallA : RawStreamEvent :=
  { message := "", tool_calls := [some pCallA] }

/-- Sample raw event delivering the "result" payload for id "a" together
with some cumulative text. -/
def evResultA : RawStreamEvent :=
  { message := "answer", tool_calls := [some pResultA] }

/-- A streaming state whose `isStreaming` flag is raised. -/
def stStreaming : StreamingState :=
  { sessionId := none
    currentCursor := "0-0"
    isStreaming := true
    isReconnecting := false
    reconnectAttempts := 0 }

/-- A well-formed incoming user message. -/
def userMsgHello : InMessage :=
  { role := "user", content := [.text "hello"] }

/-- A sample one-shot resume handoff. -/
def rsSample : ResumeSessionInfo :=
  { sessionId := "sess-1", cursor := "5-0" }

/-- An accumulator state with one tool-call record and an empty response
text, as reached after `evCallA` alone. -/
def sToolNoText : AccState :=
  { accumulatedText := ""
    accumulatedThinking := none
    accumulatedToolCalls := applyToolCallPayload [] pCallA }

/- Helper lemmas about the association-list map model. -/

theorem mapKeys_cons {α : Type} (a : String) (b : α) (m : List (String × α)) :
    mapKeys ((a, b) :: m) = a :: mapKeys m := rfl

theorem lookup_cons_self {α : Type} (k : String) (v : α) (m : List (String × α)) :
    ((k, v) :: m).lookup k = some v := by
  simp [List.lookup]

theorem lookup_cons_ne {α : Type} {k k0 : String} (v0 : α) (m : List (String × α))
    (h : k ≠ k0) : ((k0, v0) :: m).lookup k = m.lookup k := by
  have hb : (k == k0) = false := beq_eq_false_iff_ne.mpr h
  simp [List.lookup, hb]

theorem lookup_mapSet_self {α : Type} (m : List (String × α)) (k : String) (v : α) :
    (mapSet m k v).lookup k = some v := by
  induction m with
  | nil => simp [mapSet, List.lookup]
  | cons kv rest ih =>
      obtain ⟨k', v'⟩ := kv
      by_cases h : k' = k
      · subst h
        simp [mapSet, lookup_cons_self]
      · rw [show mapSet ((k', v') :: rest) k v = (k', v') :: mapSet rest k v from by
          simp [mapSet, h]]
        rw [lookup_cons_ne _ _ (Ne.symm h), ih]

theorem lookup_mapSet_ne {α : Type} (m : List (String × α)) {k k' : String} (v : α)
    (h : k' ≠ k) : (mapSet m k v).lookup k' = m.lookup k' := by
  induction m with
  | nil =>
      simp [mapSet, List.lookup, beq_eq_false_iff_ne.mpr h]
  | cons kv rest ih =>
      obtain ⟨k0, v0⟩ := kv
      by_cases h0 : k0 = k
      · subst h0
        rw [show mapSet ((k0, v0) :: rest) k0 v = (k0, v) :: rest from by
          simp [mapSet]]
        rw [lookup_cons_ne _ _ h, lookup_cons_ne _ _ h]
      · rw [show mapSet ((k0, v0) :: rest) k v = (k0, v0) :: mapSet rest k v from by
          simp [mapSet, h0]]
        by_cases h1 : k' = k0
        · subst h1
          rw [lookup_cons_self, lookup_cons_self]
        · rw [lookup_cons_ne _ _ h1, lookup_cons_ne _ _ h1, ih]

theorem mapKeys_mapSet {α : Type} (m : List (String × α)) (k : String) (v : α) :
    mapKeys (mapSet m k v) =
      if k ∈ mapKeys m then mapKeys m else mapKeys m ++ [k] := by
  induction m with
  | nil => simp [mapSet, mapKeys]
  | cons kv rest ih =>
      obtain ⟨k0, v0⟩ := kv
      by_cases h0 : k0 = k
      · subst h0
        rw [show mapSet ((k0, v0) :: rest) k0 v = (k0, v) :: rest from by
          simp [mapSet]]
        rw [mapKeys_cons, mapKeys_cons, if_pos (List.mem_cons_self _ _)]
      · rw [show mapSet ((k0, v0) :: rest) k v = (k0, v0) :: mapSet rest k v from by
          simp [mapSet, h0]]
        rw [mapKeys_cons, mapKeys_cons, ih]
        by_cases hm : k ∈ mapKeys rest
        · rw [if_pos hm, if_pos (List.mem_cons_of_mem _ hm)]
        · rw [if_neg hm, if_neg (by
            intro hc
            rcases List.mem_cons.mp hc with hc | hc
            · exact h0 hc.symm
            · exact hm hc)]
          simp

theorem lookup_isSome_iff_mem {α : Type} (m : List (String × α)) (k : String) :
    (m.lookup k).isSome = true ↔ k ∈ mapKeys m := by
  induction m with
  | nil => simp [List.lookup, mapKeys]
  | cons kv rest ih =>
      obtain ⟨k0, v0⟩ := kv
      by_cases h : k = k0
      · subst h
        simp [lookup_cons_self, mapKeys_cons]
      · rw [lookup_cons_ne _ _ h, mapKeys_cons]
        rw [ih]
        constructor
        · exact fun hm => List.mem_cons_of_mem _ hm
        · intro hm
          rcases List.mem_cons.mp hm with hm | hm
          · exact absurd hm h
          · exact hm

theorem lookup_mem {α : Type} (m : List (String × α)) (k : String) (v : α)
    (h : m.lookup k = some v) : (k, v) ∈ m := by
  induction m with
  | nil => simp [List.lookup] at h
  | cons kv rest ih =>
      obtain ⟨k0, v0⟩ := kv
      by_cases h0 : k = k0
      · subst h0
        rw [lookup_cons_self] at h
        simp at h
        simp [h]
      · rw [lookup_cons_ne _ _ h0] at h
        exact List.mem_cons_of_mem _ (ih h)

theorem mem_mapSet {α : Type} (m : List (String × α)) (k : String) (v : α)
    (kv : String × α) (h : kv ∈ mapSet m k v) : kv ∈ m ∨ kv = (k, v) := by
  induction m with
  | nil =>
      simp [mapSet] at h
      exact Or.inr h
  | cons kv0 rest ih =>
      obtain ⟨k0, v0⟩ := kv0
      by_cases h0 : k0 = k
      · subst h0
        simp [mapSet] at h
        rcases h with h | h
        · exact Or.inr (by simp [h])
        · exact Or.inl (List.mem_cons_of_mem _ h)
      · simp [mapSet, h0] at h
        rcases h with h | h
        · exact Or.inl (by simp [h])
        · rcases ih h with h' | h'
          · exact Or.inl (List.mem_cons_of_mem _ h')
          · exact Or.inr h'

/- Helper lemmas about the per-payload merge. -/

theorem applyToolCallPayload_lookup_ne (m : List (String × StreamingToolCallPart))
    (p : RawToolCallPayload) {id : String} (h : id ≠ p.call_id) :
    (applyToolCallPayload m p).lookup id = m.lookup id := by
  simp only [applyToolCallPayload]
  exact lookup_mapSet_ne _ _ h

theorem applyToolCallPayload_result_isError (m : List (String × StreamingToolCallPart))
    (p : RawToolCallPayload) :
    ((applyToolCallPayload m p).lookup p.call_id).map
        (fun r => (r.result, r.isError)) =
      some
        (if p.event_type = "result" ∨ p.event_type = "error" then
            some { event_type := p.event_type, response := p.tool_response,
                   details := p.tool_call_details }
          else none,
          some (p.event_type == "error")) := by
  simp only [applyToolCallPayload, lookup_mapSet_self, Option.map_some]
  by_cases h : p.event_type = "result" ∨ p.event_type = "error"
  · rw [if_pos h, if_pos h]
    simp
  · rw [if_neg h, if_neg h]
    have hb : (p.event_type == "error") = false :=
      beq_eq_false_iff_ne.mpr (fun hc => h (Or.inr hc))
    simp [hb]

theorem mapKeys_applyToolCallPayload (m : List (String × StreamingToolCallPart))
    (p : RawToolCallPayload) :
    mapKeys (applyToolCallPayload m p) =
      if p.call_id ∈ mapKeys m then mapKeys m else mapKeys m ++ [p.call_id] := by
  simp only [applyToolCallPayload]
  exact mapKeys_mapSet _ _ _

theorem idsConsistent_mapSet (m : List (String × StreamingToolCallPart))
    (k : String) (v : StreamingToolCallPart) (hm : idsConsistent m)
    (hv : v.toolCallId = k) : idsConsistent (mapSet m k v) := by
  intro kv hkv
  rcases mem_mapSet _ _ _ _ hkv with h | h
  · exact hm kv h
  · subst h
    exact hv

theorem idsConsistent_applyToolCallPayload (m : List (String × StreamingToolCallPart))
    (p : RawToolCallPayload) (hm : idsConsistent m) :
    idsConsistent (applyToolCallPayload m p) := by
  simp only [applyToolCallPayload]
  apply idsConsistent_mapSet _ _ _ hm
  cases hl : m.lookup p.call_id with
  | none =>
      simp only [hl, Option.getD_none]
      split <;> rfl
  | some r =>
      have := hm (p.call_id, r) (lookup_mem _ _ _ hl)
      simp only [hl, Option.getD_some]
      split <;> simpa using this

theorem idsConsistent_applyRawToolCall (m : List (String × StreamingToolCallPart))
    (op : Option RawToolCallPayload) (hm : idsConsistent m) :
    idsConsistent (applyRawToolCall m op) := by
  cases op with
  | none => exact hm
  | some p => exact idsConsistent_applyToolCallPayload m p hm

theorem idsConsistent_foldl (ps : List (Option RawToolCallPayload)) :
    ∀ m, idsConsistent m → idsConsistent (ps.foldl applyRawToolCall m) := by
  induction ps with
  | nil => exact fun m hm => hm
  | cons op rest ih =>
      intro m hm
      exact ih _ (idsConsistent_applyRawToolCall m op hm)

theorem idsConsistent_applyStreamEvents (events : List RawStreamEvent) :
    ∀ s : AccState, idsConsistent s.accumulatedToolCalls →
      idsConsistent (applyStreamEvents s events).accumulatedToolCalls := by
  induction events with
  | nil => exact fun s hs => hs
  | cons e rest ih =>
      intro s hs
      exact ih _ (idsConsistent_foldl e.tool_calls _ hs)

theorem idsConsistent_initAcc : idsConsistent initAcc.accumulatedToolCalls := by
  intro kv hkv
  simp [initAcc] at hkv

theorem namesOk_mapSet (m : List (String × StreamingToolCallPart))
    (k : String) (v : StreamingToolCallPart) (hm : namesOk m)
    (hv : v.toolCallId ≠ "" ∧ v.toolName ≠ "") : namesOk (mapSet m k v) := by
  intro kv hkv
  rcases mem_mapSet _ _ _ _ hkv with h | h
  · exact hm kv h
  · subst h
    exact hv

theorem namesOk_applyToolCallPayload (m : List (String × StreamingToolCallPart))
    (p : RawToolCallPayload) (hm : namesOk m) (hid : p.call_id ≠ "")
    (hname : p.tool_name ≠ "") : namesOk (applyToolCallPayload m p) := by
  simp only [applyToolCallPayload]
  apply namesOk_mapSet _ _ _ hm
  constructor
  · cases hl : m.lookup p.call_id with
    | none =>
        simp only [hl, Option.getD_none]
        split <;> simpa using hid
    | some r =>
        have := (hm (p.call_id, r) (lookup_mem _ _ _ hl)).1
        simp only [hl, Option.getD_some]
        split <;> simpa using this
  · split <;> simpa using hname

theorem namesOk_applyRawToolCall (m : List (String × StreamingToolCallPart))
    (op : Option RawToolCallPayload) (hm : namesOk m)
    (hop : ∀ p : RawToolCallPayload, op = some p → p.call_id ≠ "" ∧ p.tool_name ≠ "") :
    namesOk (applyRawToolCall m op) := by
  cases op with
  | none => exact hm
  | some p => exact namesOk_applyToolCallPayload m p hm (hop p rfl).1 (hop p rfl).2

theorem namesOk_foldl (ps : List (Option RawToolCallPayload)) :
    ∀ m, namesOk m →
      (∀ p : RawToolCallPayload, some p ∈ ps → p.call_id ≠ "" ∧ p.tool_name ≠ "") →
      namesOk (ps.foldl applyRawToolCall m) := by
  induction ps with
  | nil => exact fun m hm _ => hm
  | cons op rest ih =>
      intro m hm hp
      apply ih _ (namesOk_applyRawToolCall m op hm ?_) ?_
      · intro p hop
        exact hp p (by simp [hop])
      · intro p hop
        exact hp p (List.mem_cons_of_mem _ hop)

theorem namesOk_applyStreamEvents (events : List RawStreamEvent) :
    ∀ s : AccState, namesOk s.accumulatedToolCalls →
      (∀ e ∈ events, eventWF e) →
      namesOk (applyStreamEvents s events).accumulatedToolCalls := by
  induction events with
  | nil => exact fun s hs _ => hs
  | cons e rest ih =>
      intro s hs hwf
      apply ih
      · exact namesOk_foldl e.tool_calls _ hs (hwf e (List.mem_cons_self _ _))
      · intro e' he'
        exact hwf e' (List.mem_cons_of_mem _ he')

theorem namesOk_initAcc : namesOk initAcc.accumulatedToolCalls := by
  intro kv hkv
  simp [initAcc] at hkv

/- First-seen order of the reconciled map's keys. -/

theorem firstSeenFrom_cons (acc : List String) (i : String) (ids : List String) :
    firstSeenFrom acc (i :: ids) =
      firstSeenFrom (if i ∈ acc then acc else acc ++ [i]) ids := rfl

theorem firstSeenFrom_append (acc : List String) (l1 l2 : List String) :
    firstSeenFrom acc (l1 ++ l2) = firstSeenFrom (firstSeenFrom acc l1) l2 := by
  simp [firstSeenFrom, List.foldl_append]

theorem firstSeenFrom_nodup (l : List String) :
    ∀ acc : List String, acc.Nodup → (firstSeenFrom acc l).Nodup := by
  induction l with
  | nil => exact fun acc h => h
  | cons i rest ih =>
      intro acc hacc
      rw [firstSeenFrom_cons]
      by_cases hm : i ∈ acc
      · rw [if_pos hm]
        exact ih acc hacc
      · rw [if_neg hm]
        apply ih
        simp [List.nodup_append, hacc, hm]

theorem mapKeys_foldl_payloads (ps : List (Option RawToolCallPayload)) :
    ∀ m : List (String × StreamingToolCallPart),
      mapKeys (ps.foldl applyRawToolCall m) =
        firstSeenFrom (mapKeys m) (payloadIds ps) := by
  induction ps with
  | nil => exact fun m => rfl
  | cons op rest ih =>
      intro m
      cases op with
      | none =>
          show mapKeys (rest.foldl applyRawToolCall m) = _
          rw [ih m]
          simp [payloadIds]
      | some p =>
          show mapKeys (rest.foldl applyRawToolCall (applyToolCallPayload m p)) = _
          rw [ih (applyToolCallPayload m p)]
          have hids : payloadIds (some p :: rest) = p.call_id :: payloadIds rest := by
            simp [payloadIds]
          rw [hids, firstSeenFrom_cons, mapKeys_applyToolCallPayload]

theorem eventsIds_cons (e : RawStreamEvent) (rest : List RawStreamEvent) :
    eventsIds (e :: rest) = eventIds e ++ eventsIds rest := by
  simp [eventsIds]

theorem mapKeys_applyStreamEvents (events : List RawStreamEvent) :
    ∀ s : AccState,
      mapKeys (applyStreamEvents s events).accumulatedToolCalls =
        firstSeenFrom (mapKeys s.accumulatedToolCalls) (eventsIds events) := by
  induction events with
  | nil =>
      intro s
      simp [applyStreamEvents, eventsIds, firstSeenFrom]
  | cons e rest ih =>
      intro s
      show mapKeys (applyStreamEvents (applyStreamEvent s e) rest).accumulatedToolCalls = _
      rw [ih (applyStreamEvent s e), eventsIds_cons, firstSeenFrom_append]
      congr 1
      exact mapKeys_foldl_payloads e.tool_calls s.accumulatedToolCalls

theorem mapKeys_applyStreamEvents_initAcc (events : List RawStreamEvent) :
    mapKeys (applyStreamEvents initAcc events).accumulatedToolCalls =
      firstSeen (eventsIds events) := by
  rw [mapKeys_applyStreamEvents]
  rfl

/- Structure of the rendered content updates. -/

theorem dropWhile_toolSeg (l : List (String × StreamingToolCallPart))
    (t : List ContentPart) :
    (l.map (fun kv => ContentPart.toolCall kv.2) ++ t).dropWhile isToolPart =
      t.dropWhile isToolPart := by
  induction l with
  | nil => rfl
  | cons kv rest ih => simpa [List.dropWhile, isToolPart] using ih

theorem wellOrdered_core (l : List (String × StreamingToolCallPart))
    (C : List ContentPart) (hC : C = [] ∨ ∃ u, C = [ContentPart.text u]) :
    wellOrdered (l.map (fun kv => ContentPart.toolCall kv.2) ++ C) = true ∧
    ∀ t : String,
      wellOrdered (ContentPart.reasoning t ::
        (l.map (fun kv => ContentPart.toolCall kv.2) ++ C)) = true := by
  have hCdrop : C.dropWhile isToolPart = C := by
    rcases hC with h | ⟨u, h⟩ <;> subst h <;> rfl
  have hmatch :
      (match C.dropWhile isToolPart with
       | [] => true
       | [ContentPart.text _] => true
       | _ => false) = true := by
    rw [hCdrop]
    rcases hC with h | ⟨u, h⟩ <;> subst h <;> rfl
  constructor
  · cases l with
    | nil =>
        rcases hC with h | ⟨u, h⟩ <;> subst h <;> rfl
    | cons kv rest =>
        show wellOrdered
          (ContentPart.toolCall kv.2 ::
            (rest.map (fun kv => ContentPart.toolCall kv.2) ++ C)) = true
        unfold wellOrdered
        simp only []
        rw [show (ContentPart.toolCall kv.2 ::
            (rest.map (fun kv => ContentPart.toolCall kv.2) ++ C)).dropWhile isToolPart =
              C.dropWhile isToolPart from dropWhile_toolSeg (kv :: rest) C]
        exact hmatch
  · intro t
    unfold wellOrdered
    simp only []
    rw [show (l.map (fun kv => ContentPart.toolCall kv.2) ++ C).dropWhile isToolPart =
          C.dropWhile isToolPart from dropWhile_toolSeg l C]
    exact hmatch

theorem wellOrdered_renderNormal (s : AccState) :
    wellOrdered (renderNormal s) = true := by
  obtain ⟨tx, th, m⟩ := s
  have hC : (if tx != "" then [ContentPart.text tx] else []) = [] ∨
      ∃ u, (if tx != "" then [ContentPart.text tx] else []) = [ContentPart.text u] := by
    by_cases h : tx != ""
    · exact Or.inr ⟨tx, by rw [if_pos h]⟩
    · exact Or.inl (by rw [if_neg h])
  have hcore := wellOrdered_core m _ hC
  show wellOrdered
    ((match th with
      | some t => if t != "" then [ContentPart.reasoning t] else []
      | none => []) ++
      m.map (fun kv => ContentPart.toolCall kv.2) ++
      (if tx != "" then [ContentPart.text tx] else [])) = true
  cases th with
  | none =>
      simpa using hcore.1
  | some t =>
      show wellOrdered
        ((if t != "" then [ContentPart.reasoning t] else []) ++
          m.map (fun kv => ContentPart.toolCall kv.2) ++
          (if tx != "" then [ContentPart.text tx] else [])) = true
      by_cases ht : t != ""
      · rw [if_pos ht]
        simpa using hcore.2 t
      · rw [if_neg ht]
        simpa using hcore.1

theorem wellOrdered_renderResume (message : String)
    (m : List (String × StreamingToolCallPart)) (thinking : Option String) :
    wellOrdered (renderResume message m thinking) = true := by
  have hC : ([ContentPart.text message] : List ContentPart) = [] ∨
      ∃ u, ([ContentPart.text message] : List ContentPart) = [ContentPart.text u] :=
    Or.inr ⟨message, rfl⟩
  have hcore := wellOrdered_core
    (m.filter (fun kv => kv.2.toolCallId != "" && kv.2.toolName != "")) _ hC
  show wellOrdered
    ((match thinking with
      | some t => if t.trim != "" then [ContentPart.reasoning t] else []
      | none => []) ++
      (m.filter (fun kv => kv.2.toolCallId != "" && kv.2.toolName != "")).map
        (fun kv => ContentPart.toolCall kv.2) ++
      [ContentPart.text message]) = true
  cases thinking with
  | none =>
      simpa using hcore.1
  | some t =>
      show wellOrdered
        ((if t.trim != "" then [ContentPart.reasoning t] else []) ++
          (m.filter (fun kv => kv.2.toolCallId != "" && kv.2.toolName != "")).map
            (fun kv => ContentPart.toolCall kv.2) ++
          [ContentPart.text message]) = true
      by_cases ht : t.trim != ""
      · rw [if_pos ht]
        simpa using hcore.2 t
      · rw [if_neg ht]
        simpa using hcore.1

theorem toolIdsIn_parts (l : List (String × StreamingToolCallPart))
    (A C : List ContentPart)
    (hA : A = [] ∨ ∃ t, A = [ContentPart.reasoning t])
    (hC : C = [] ∨ ∃ t, C = [ContentPart.text t]) :
    toolIdsIn (A ++ l.map (fun kv => ContentPart.toolCall kv.2) ++ C) =
      l.map (fun kv => kv.2.toolCallId) := by
  unfold toolIdsIn
  rw [List.filterMap_append, List.filterMap_append]
  have hAnil : A.filterMap (fun c =>
      match c with
      | ContentPart.toolCall p => some p.toolCallId
      | _ => none) = [] := by
    rcases hA with h | ⟨t, h⟩ <;> subst h <;> rfl
  have hCnil : C.filterMap (fun c =>
      match c with
      | ContentPart.toolCall p => some p.toolCallId
      | _ => none) = [] := by
    rcases hC with h | ⟨t, h⟩ <;> subst h <;> rfl
  rw [hAnil, hCnil]
  simp only [List.nil_append, List.append_nil]
  induction l with
  | nil => rfl
  | cons kv rest ih => simpa using ih

theorem textSegments_parts (l : List (String × StreamingToolCallPart))
    (A C : List ContentPart)
    (hA : A = [] ∨ ∃ t, A = [ContentPart.reasoning t]) :
    textSegments (A ++ l.map (fun kv => ContentPart.toolCall kv.2) ++ C) =
      textSegments C := by
  unfold textSegments
  rw [List.filterMap_append, List.filterMap_append]
  have hAnil : A.filterMap (fun c =>
      match c with
      | ContentPart.text t => some t
      | _ => none) = [] := by
    rcases hA with h | ⟨t, h⟩ <;> subst h <;> rfl
  have hBnil : (l.map (fun kv => ContentPart.toolCall kv.2)).filterMap (fun c =>
      match c with
      | ContentPart.text t => some t
      | _ => none) = [] := by
    induction l with
    | nil => rfl
    | cons kv rest ih =>
        simp only [List.map_cons, List.filterMap_cons]
        exact ih
  rw [hAnil, hBnil]
  simp

theorem renderNormal_shape (s : AccState) :
    renderNormal s =
      (match s.accumulatedThinking with
       | some t => if t != "" then [ContentPart.reasoning t] else []
       | none => []) ++
      s.accumulatedToolCalls.map (fun kv => ContentPart.toolCall kv.2) ++
      (if s.accumulatedText != "" then [ContentPart.text s.accumulatedText] else []) := rfl

theorem reasoningSeg_opt (th : Option String) (f : String → Bool) :
    (match th with
     | some t => if f t then [ContentPart.reasoning t] else []
     | none => ([] : List ContentPart)) = [] ∨
    ∃ u, (match th with
     | some t => if f t then [ContentPart.reasoning t] else []
     | none => ([] : List ContentPart)) = [ContentPart.reasoning u] := by
  cases th with
  | none => exact Or.inl rfl
  | some t =>
      by_cases h : f t
      · exact Or.inr ⟨t, show (if f t = true then [ContentPart.reasoning t] else []) =
          [ContentPart.reasoning t] from by rw [if_pos h]⟩
      · exact Or.inl (show (if f t = true then [ContentPart.reasoning t] else []) =
          [] from by rw [if_neg h])

theorem textSeg_opt (tx : String) :
    (if tx != "" then [ContentPart.text tx] else []) = [] ∨
    ∃ u, (if tx != "" then [ContentPart.text tx] else []) = [ContentPart.text u] := by
  by_cases h : tx != ""
  · exact Or.inr ⟨tx, by rw [if_pos h]⟩
  · exact Or.inl (by rw [if_neg h])

theorem toolIdsIn_renderNormal (s : AccState)
    (h : idsConsistent s.accumulatedToolCalls) :
    toolIdsIn (renderNormal s) = mapKeys s.accumulatedToolCalls := by
  rw [renderNormal_shape,
    toolIdsIn_parts _ _ _ (reasoningSeg_opt _ _) (textSeg_opt _)]
  exact List.map_congr_left (fun kv hkv => h kv hkv)

theorem filter_names_eq_self (m : List (String × StreamingToolCallPart))
    (h : namesOk m) :
    m.filter (fun kv => kv.2.toolCallId != "" && kv.2.toolName != "") = m := by
  induction m with
  | nil => rfl
  | cons kv rest ih =>
      have hkv := h kv (List.mem_cons_self _ _)
      have hcond : (kv.2.toolCallId != "" && kv.2.toolName != "") = true := by
        simp [hkv.1, hkv.2]
      simp only [List.filter_cons, hcond, if_true]
      rw [ih (fun kv' hkv' => h kv' (List.mem_cons_of_mem _ hkv'))]

theorem renderResume_shape (message : String)
    (m : List (String × StreamingToolCallPart)) (thinking : Option String) :
    renderResume message m thinking =
      (match thinking with
       | some t => if t.trim != "" then [ContentPart.reasoning t] else []
       | none => []) ++
      (m.filter (fun kv => kv.2.toolCallId != "" && kv.2.toolName != "")).map
        (fun kv => ContentPart.toolCall kv.2) ++
      [ContentPart.text message] := rfl

theorem toolIdsIn_renderResume (message : String)
    (m : List (String × StreamingToolCallPart)) (thinking : Option String)
    (hn : namesOk m) (hi : idsConsistent m) :
    toolIdsIn (renderResume message m thinking) = mapKeys m := by
  rw [renderResume_shape,
    toolIdsIn_parts _ _ _ (reasoningSeg_opt _ _) (Or.inr ⟨message, rfl⟩),
    filter_names_eq_self m hn]
  exact List.map_congr_left (fun kv hkv => hi kv hkv)

theorem textSegments_renderNormal (s : AccState) :
    textSegments (renderNormal s) =
      if s.accumulatedText != "" then [s.accumulatedText] else [] := by
  rw [renderNormal_shape, textSegments_parts _ _ _ (reasoningSeg_opt _ _)]
  by_cases h : s.accumulatedText != ""
  · rw [if_pos h, if_pos h]
    rfl
  · rw [if_neg h, if_neg h]
    rfl

theorem renderResume_ends_with_text (message : String)
    (m : List (String × StreamingToolCallPart)) (thinking : Option String) :
    ∃ prev, renderResume message m thinking = prev ++ [ContentPart.text message] :=
  ⟨_, renderResume_shape message m thinking⟩

/- Lemmas about the normal-mode generator machine. -/

theorem runSteps_append (s1 s2 : List Step) :
    ∀ g : GenState,
      runSteps g (s1 ++ s2) =
        ((runSteps (runSteps g s1).1 s2).1,
          (runSteps g s1).2 ++ (runSteps (runSteps g s1).1 s2).2) := by
  induction s1 with
  | nil => intro g; simp [runSteps]
  | cons st rest ih =>
      intro g
      cases st with
      | ev e => simpa [runSteps] using ih (stepEv g e)
      | tick => simp [runSteps, ih (stepTick g).1, List.append_assoc]
      | abort => simpa [runSteps] using ih (stepAbort g)

theorem stepEv_aborted (g : GenState) (e : RawStreamEvent) (h : g.aborted = true) :
    stepEv g e = g := by
  simp [stepEv, h]

theorem stepTick_aborted (g : GenState) (h : g.aborted = true) :
    stepTick g = (g, []) := by
  simp [stepTick, h]

theorem stepAbort_aborted_of (g : GenState) (h : g.aborted = true) :
    stepAbort g = g := by
  simp [stepAbort, h]

theorem stepAbort_aborted (g : GenState) : (stepAbort g).aborted = true := by
  by_cases h : g.aborted = true
  · rw [stepAbort_aborted_of g h]; exact h
  · simp [stepAbort, h]

theorem runSteps_frozen (steps : List Step) :
    ∀ g : GenState, g.aborted = true → runSteps g steps = (g, []) := by
  induction steps with
  | nil => intro g _; rfl
  | cons st rest ih =>
      intro g hg
      cases st with
      | ev e =>
          show runSteps (stepEv g e) rest = (g, [])
          rw [stepEv_aborted g e hg]
          exact ih g hg
      | tick =>
          show ((runSteps (stepTick g).1 rest).1,
            (stepTick g).2 ++ (runSteps (stepTick g).1 rest).2) = (g, [])
          rw [stepTick_aborted g hg]
          simp [ih g hg]
      | abort =>
          show runSteps (stepAbort g) rest = (g, [])
          rw [stepAbort_aborted_of g hg]
          exact ih g hg

theorem stopInv_runSteps (steps : List Step) :
    ∀ g : GenState, g.stopCalls = (if g.aborted = true then 1 else 0) →
      (runSteps g steps).1.stopCalls =
        (if (runSteps g steps).1.aborted = true then 1 else 0) := by
  induction steps with
  | nil => exact fun g hg => hg
  | cons st rest ih =>
      intro g hg
      cases st with
      | ev e =>
          apply ih
          by_cases h : g.aborted = true
          · rw [stepEv_aborted g e h]; exact hg
          · simp [stepEv, h] at hg ⊢; simpa [h] using hg
      | tick =>
          show (runSteps (stepTick g).1 rest).1.stopCalls = _
          apply ih
          by_cases h : g.aborted = true
          · rw [stepTick_aborted g h]; exact hg
          · by_cases hu : g.hasUpdate = true
            · simpa [stepTick, h, hu] using hg
            · simpa [stepTick, h, hu] using hg
      | abort =>
          apply ih
          by_cases h : g.aborted = true
          · rw [stepAbort_aborted_of g h]; exact hg
          · simp [stepAbort, h] at hg ⊢; simpa [h] using hg

theorem eventsOf_eq_nil (steps : List Step) (h : hasEv steps = false) :
    eventsOf steps = [] := by
  induction steps with
  | nil => rfl
  | cons st rest ih =>
      cases st with
      | ev e => simp [hasEv] at h
      | tick => exact ih (by simpa [hasEv] using h)
      | abort => exact ih (by simpa [hasEv] using h)

theorem runSteps_quiet (steps : List Step) :
    ∀ g : GenState, hasAbort steps = false → hasEv steps = false →
      g.hasUpdate = false → g.aborted = false → runSteps g steps = (g, []) := by
  induction steps with
  | nil => intro g _ _ _ _; rfl
  | cons st rest ih =>
      intro g ha he hu hab
      cases st with
      | ev e => simp [hasEv] at he
      | tick =>
          show ((runSteps (stepTick g).1 rest).1,
            (stepTick g).2 ++ (runSteps (stepTick g).1 rest).2) = (g, [])
          have : stepTick g = (g, []) := by simp [stepTick, hab, hu]
          rw [this]
          simp [ih g (by simpa [hasAbort] using ha) (by simpa [hasEv] using he) hu hab]
      | abort => simp [hasAbort] at ha

theorem yields_render_prefix (steps : List Step) :
    ∀ g : GenState, g.aborted = false →
      ∀ y ∈ (runSteps g steps).2,
        ∃ k, y = renderNormal (applyStreamEvents g.acc ((eventsOf steps).take k)) := by
  induction steps with
  | nil => intro g _ y hy; simp [runSteps] at hy
  | cons st rest ih =>
      intro g hg y hy
      cases st with
      | ev e =>
          have hg' : (stepEv g e).aborted = false := by simp [stepEv, hg]
          have hacc : (stepEv g e).acc = applyStreamEvent g.acc e := by
            simp [stepEv, hg]
          rcases ih (stepEv g e) hg' y hy with ⟨k, hk⟩
          refine ⟨k + 1, ?_⟩
          rw [hk, hacc]
          rfl
      | tick =>
          by_cases hu : g.hasUpdate = true
          · have hstep : stepTick g = ({ g with hasUpdate := false }, [renderNormal g.acc]) := by
              simp [stepTick, hg, hu]
            rw [show (runSteps g (Step.tick :: rest)).2 =
                (stepTick g).2 ++ (runSteps (stepTick g).1 rest).2 from rfl, hstep] at hy
            simp only [List.mem_append, List.mem_singleton] at hy
            rcases hy with hy | hy
            · exact ⟨0, by simpa using hy⟩
            · rcases ih { g with hasUpdate := false } (by simpa using hg) y hy with ⟨k, hk⟩
              exact ⟨k, hk⟩
          · have hstep : stepTick g = (g, []) := by simp [stepTick, hg, hu]
            rw [show (runSteps g (Step.tick :: rest)).2 =
                (stepTick g).2 ++ (runSteps (stepTick g).1 rest).2 from rfl, hstep] at hy
            simp only [List.nil_append] at hy
            exact ih g hg y hy
      | abort =>
          have : runSteps (stepAbort g) rest = (stepAbort g, []) :=
            runSteps_frozen rest _ (stepAbort_aborted g)
          rw [show (runSteps g (Step.abort :: rest)).2 =
            (runSteps (stepAbort g) rest).2 from rfl, this] at hy
          simp at hy

theorem acc_prefix (steps : List Step) :
    ∀ g : GenState,
      ∃ k, (runSteps g steps).1.acc =
        applyStreamEvents g.acc ((eventsOf steps).take k) := by
  induction steps with
  | nil => intro g; exact ⟨0, rfl⟩
  | cons st rest ih =>
      intro g
      cases st with
      | ev e =>
          by_cases hg : g.aborted = true
          · rw [show runSteps g (Step.ev e :: rest) = runSteps (stepEv g e) rest from rfl,
              stepEv_aborted g e hg, runSteps_frozen rest g hg]
            exact ⟨0, rfl⟩
          · have hacc : (stepEv g e).acc = applyStreamEvent g.acc e := by
              simp [stepEv, hg]
            rcases ih (stepEv g e) with ⟨k, hk⟩
            exact ⟨k + 1, by rw [show runSteps g (Step.ev e :: rest) =
              runSteps (stepEv g e) rest from rfl, hk, hacc]; rfl⟩
      | tick =>
          rcases ih (stepTick g).1 with ⟨k, hk⟩
          have hacc : (stepTick g).1.acc = g.acc := by
            by_cases hg : g.aborted = true
            · rw [stepTick_aborted g hg]
            · by_cases hu : g.hasUpdate = true <;> simp [stepTick, hg, hu]
          exact ⟨k, by rw [show (runSteps g (Step.tick :: rest)).1 =
            (runSteps (stepTick g).1 rest).1 from rfl, hk, hacc]; rfl⟩
      | abort =>
          rcases ih (stepAbort g) with ⟨k, hk⟩
          have hacc : (stepAbort g).acc = g.acc := by
            by_cases hg : g.aborted = true
            · rw [stepAbort_aborted_of g hg]
            · simp [stepAbort, hg]
          exact ⟨k, by rw [show (runSteps g (Step.abort :: rest)).1 =
            (runSteps (stepAbort g) rest).1 from rfl, hk, hacc]; rfl⟩

theorem streamNormalRun_none_yields (steps : List Step) :
    (streamNormalRun steps none).yields =
      (runSteps initGen steps).2 ++ postludeYields (runSteps initGen steps).1 := by
  simp [streamNormalRun, postludeYields, List.append_assoc]

theorem stepTick_acc (g : GenState) : (stepTick g).1.acc = g.acc := by
  by_cases hg : g.aborted = true
  · rw [stepTick_aborted g hg]
  · by_cases hu : g.hasUpdate = true <;> simp [stepTick, hg, hu]

theorem postludeYields_mem (g : GenState) :
    ∀ y ∈ postludeYields g, y = renderNormal g.acc := by
  intro y hy
  unfold postludeYields at hy
  rw [List.mem_append] at hy
  rcases hy with hy | hy
  · by_cases hg : g.aborted = true
    · rw [stepTick_aborted g hg] at hy
      simp at hy
    · by_cases hu : g.hasUpdate = true
      · have : stepTick g = ({ g with hasUpdate := false }, [renderNormal g.acc]) := by
          simp [stepTick, hg, hu]
        rw [this] at hy
        simpa using hy
      · have : stepTick g = (g, []) := by simp [stepTick, hg, hu]
        rw [this] at hy
        simp at hy
  · by_cases hc : (!(stepTick g).1.aborted && hasContent (stepTick g).1.acc) = true
    · rw [if_pos hc] at hy
      rw [List.mem_singleton] at hy
      rw [hy, stepTick_acc]
    · rw [if_neg hc] at hy
      simp at hy

theorem totalYields_last (steps : List Step) :
    ∀ g : GenState, hasAbort steps = false → g.aborted = false →
      (g.hasUpdate = true ∨ hasEv steps = true) →
      ∃ prev, (runSteps g steps).2 ++ postludeYields (runSteps g steps).1 =
        prev ++ [renderNormal (applyStreamEvents g.acc (eventsOf steps))] := by
  induction steps with
  | nil =>
      intro g _ hg hu
      rcases hu with hu | hu
      · have hstep : stepTick g = ({ g with hasUpdate := false }, [renderNormal g.acc]) := by
          simp [stepTick, hg, hu]
        show ∃ prev, [] ++ postludeYields g =
          prev ++ [renderNormal (applyStreamEvents g.acc [])]
        unfold postludeYields
        rw [hstep]
        by_cases hc : hasContent g.acc = true
        · exact ⟨[renderNormal g.acc], by simp [hg, hc, applyStreamEvents]⟩
        · exact ⟨[], by simp [hg, hc, applyStreamEvents]⟩
      · simp [hasEv] at hu
  | cons st rest ih =>
      intro g ha hg hu
      cases st with
      | ev e =>
          have ha' : hasAbort rest = false := by simpa [hasAbort] using ha
          have hse : stepEv g e =
              { g with acc := applyStreamEvent g.acc e, hasUpdate := true } := by
            simp [stepEv, hg]
          rcases ih { g with acc := applyStreamEvent g.acc e, hasUpdate := true }
              ha' (by simp [hg]) (Or.inl (by simp)) with ⟨prev, hprev⟩
          refine ⟨prev, ?_⟩
          show (runSteps (stepEv g e) rest).2 ++
            postludeYields (runSteps (stepEv g e) rest).1 =
            prev ++ [renderNormal (applyStreamEvents g.acc (e :: eventsOf rest))]
          rw [hse]
          exact hprev
      | tick =>
          have ha' : hasAbort rest = false := by simpa [hasAbort] using ha
          by_cases hup : g.hasUpdate = true
          · have hstep : stepTick g =
                ({ g with hasUpdate := false }, [renderNormal g.acc]) := by
              simp [stepTick, hg, hup]
            by_cases hev : hasEv rest = true
            · rcases ih { g with hasUpdate := false } ha' (by simp [hg])
                (Or.inr hev) with ⟨prev, hprev⟩
              refine ⟨renderNormal g.acc :: prev, ?_⟩
              show ((stepTick g).2 ++ (runSteps (stepTick g).1 rest).2) ++
                postludeYields (runSteps (stepTick g).1 rest).1 =
                (renderNormal g.acc :: prev) ++
                  [renderNormal (applyStreamEvents g.acc (eventsOf rest))]
              rw [hstep]
              rw [List.append_assoc]
              rw [show (({ g with hasUpdate := false }, [renderNormal g.acc]) :
                GenState × List (List ContentPart)).2 = [renderNormal g.acc] from rfl]
              rw [show (({ g with hasUpdate := false }, [renderNormal g.acc]) :
                GenState × List (List ContentPart)).1 = { g with hasUpdate := false } from rfl]
              rw [hprev]
              rfl
            · have hq : runSteps { g with hasUpdate := false } rest =
                  ({ g with hasUpdate := false }, []) :=
                runSteps_quiet rest _ ha' (by simpa using hev) (by simp) (by simp [hg])
              have hstep2 : stepTick ({ g with hasUpdate := false } : GenState) =
                  ({ g with hasUpdate := false }, []) := by
                simp [stepTick, hg]
              have hnil : eventsOf rest = [] :=
                eventsOf_eq_nil rest (by simpa using hev)
              show ∃ prev, ((stepTick g).2 ++ (runSteps (stepTick g).1 rest).2) ++
                postludeYields (runSteps (stepTick g).1 rest).1 =
                prev ++ [renderNormal (applyStreamEvents g.acc (eventsOf rest))]
              rw [hstep]
              rw [show (({ g with hasUpdate := false }, [renderNormal g.acc]) :
                GenState × List (List ContentPart)).2 = [renderNormal g.acc] from rfl]
              rw [show (({ g with hasUpdate := false }, [renderNormal g.acc]) :
                GenState × List (List ContentPart)).1 = { g with hasUpdate := false } from rfl]
              rw [hq]
              unfold postludeYields
              rw [hstep2, hnil]
              by_cases hc : hasContent g.acc = true
              · exact ⟨[renderNormal g.acc], by simp [hg, hc, applyStreamEvents]⟩
              · exact ⟨[], by simp [hg, hc, applyStreamEvents]⟩
          · have hev : hasEv rest = true := by
              rcases hu with hu | hu
              · exact absurd hu hup
              · simpa [hasEv] using hu
            have hstep : stepTick g = (g, []) := by simp [stepTick, hg, hup]
            rcases ih g ha' hg (Or.inr hev) with ⟨prev, hprev⟩
            refine ⟨prev, ?_⟩
            show ((stepTick g).2 ++ (runSteps (stepTick g).1 rest).2) ++
              postludeYields (runSteps (stepTick g).1 rest).1 =
              prev ++ [renderNormal (applyStreamEvents g.acc (eventsOf rest))]
            rw [hstep]
            simpa using hprev
      | abort => simp [hasAbort] at ha

/- Lemmas about the resume-mode run. -/

theorem resumeRunFrom_last (events : List RawStreamEvent) :
    ∀ s : AccState, events ≠ [] →
      ∃ prev, resumeRunFrom s events =
        prev ++ [renderResumeState (applyStreamEvents s events)] := by
  induction events with
  | nil => intro s h; exact absurd rfl h
  | cons e rest ih =>
      intro s _
      cases hrest : rest with
      | nil =>
          exact ⟨[], by simp [resumeRunFrom, applyStreamEvents]⟩
      | cons e2 rest2 =>
          rcases ih (applyStreamEvent s e) (by simp [hrest]) with ⟨prev, hprev⟩
          rw [hrest] at hprev
          refine ⟨renderResumeState (applyStreamEvent s e) :: prev, ?_⟩
          show renderResumeState (applyStreamEvent s e) ::
            resumeRunFrom (applyStreamEvent s e) (e2 :: rest2) = _
          rw [hprev]
          rfl

theorem resumeRunFrom_mem (events : List RawStreamEvent) :
    ∀ s : AccState, ∀ y ∈ resumeRunFrom s events,
      ∃ k, y = renderResumeState (applyStreamEvents s (events.take k)) := by
  induction events with
  | nil => intro s y hy; simp [resumeRunFrom] at hy
  | cons e rest ih =>
      intro s y hy
      rw [show resumeRunFrom s (e :: rest) =
        renderResumeState (applyStreamEvent s e) ::
          resumeRunFrom (applyStreamEvent s e) rest from rfl] at hy
      rcases List.mem_cons.mp hy with hy | hy
      · exact ⟨1, by rw [hy]; rfl⟩
      · rcases ih (applyStreamEvent s e) y hy with ⟨k, hk⟩
        exact ⟨k + 1, by rw [hk]; rfl⟩

/- Claim theorems. -/

/-- C1, counterexample: the claim states that "delegation_result" is a
terminal event type for the streaming reconciler, setting the record's
terminal result. In the code (runtime.ts lines 200 and 419 test only
`event_type === "result" || event_type === "error"`), applying a
"delegation_result" payload takes the non-terminal branch: the snapshot
is stored in `streamState`, but `result` is cleared to `undefined` and
`isError` to `false` — the record stays pending, refuting the claim at
this concrete input. -/
theorem claim1_counterexample :
    ((applyToolCallPayload [] pDelegationA).lookup "a").map
        (fun r => (r.streamState, r.result, r.isError)) =
      some
        (some { event_type := "delegation_result", response := JsVal.str "done",
                details := JsVal.undef },
          none, some false) := rfl

/-- C1, amended: for every raw tool-call payload applied by the streaming
reconciler (normal and resume mode use the identical merge), exactly the
event types "result" and "error" are terminal — they set the record's
terminal result to the payload's response/detail snapshot and the error
flag is set exactly when the type is "error"; every other event type
(including "delegation_result") leaves the record pending. Only the
history-replay dedupe (`dedupeToolCalls`) additionally treats
"delegation_result" as terminal-class, overwriting the earlier entry. -/
theorem claim1_streaming_terminal_classification :
    (∀ (m : List (String × StreamingToolCallPart)) (p : RawToolCallPayload),
        ((applyToolCallPayload m p).lookup p.call_id).map
            (fun r => (r.result, r.isError)) =
          some
            (if p.event_type = "result" ∨ p.event_type = "error" then
                some { event_type := p.event_type, response := p.tool_response,
                       details := p.tool_call_details }
              else none,
              some (p.event_type == "error"))) ∧
    (∀ (a : ToolCall) (n : String) (d r : JsVal) (c : Option Bool),
        dedupeToolCalls
            [a, { call_id := a.call_id, tool_name := n, tool_call_details := d,
                  event_type := "delegation_result", tool_response := r,
                  is_complete := c }] =
          [mergeToolCall a
            { call_id := a.call_id, tool_name := n, tool_call_details := d,
              event_type := "delegation_result", tool_response := r,
              is_complete := c }]) := by
  constructor
  · exact fun m p => applyToolCallPayload_result_isError m p
  · intro a n d r c
    show (List.foldl _ ([] : List (String × ToolCall)) _).map _ = _
    simp only [List.foldl]
    rw [show (List.lookup a.call_id ([] : List (String × ToolCall))) = none from rfl]
    simp only [mapSet]
    rw [show (List.lookup a.call_id [(a.call_id, a)]) = some a from
      lookup_cons_self a.call_id a []]
    simp [mapSet]

/-- C2, counterexample: the claim states that once a record holds a
terminal result, no later event — including a later non-terminal event
for the same identifier — reverts it to pending. In the code, a
non-terminal event for the same call id takes the `else` branch
(runtime.ts lines 203-205 and 422-424), which sets `result` back to
`undefined`: after a "result" event for "a" followed by a "progress"
event for "a", the record for "a" is pending again. -/
theorem claim2_counterexample :
    (((applyToolCallPayload [] pResultA).lookup "a").map (fun r => r.result) =
      some (some { event_type := "result", response := JsVal.str "42",
                   details := JsVal.undef })) ∧
    (((applyToolCallPayload (applyToolCallPayload [] pResultA)
        pProgressA).lookup "a").map (fun r => r.result) = some none) :=
  ⟨rfl, rfl⟩

/-- C2, amended: reconciliation is monotonic only across distinct call
identifiers — an event never touches the record of a different call id,
so terminal state captured for other calls is untouched; but a later
non-terminal event for the same identifier does revert that record to
pending, clearing its terminal result. -/
theorem claim2_monotonic_across_ids :
    (∀ (m : List (String × StreamingToolCallPart)) (p : RawToolCallPayload)
        (id : String), id ≠ p.call_id →
        (applyToolCallPayload m p).lookup id = m.lookup id) ∧
    (∀ (m : List (String × StreamingToolCallPart)) (p : RawToolCallPayload),
        p.event_type ≠ "result" → p.event_type ≠ "error" →
        ((applyToolCallPayload m p).lookup p.call_id).map (fun r => r.result) =
          some none) := by
  constructor
  · exact fun m p id h => applyToolCallPayload_lookup_ne m p h
  · intro m p h1 h2
    have h := applyToolCallPayload_result_isError m p
    rw [if_neg (fun hc => hc.elim h1 h2)] at h
    cases hl : (applyToolCallPayload m p).lookup p.call_id with
    | none => rw [hl] at h; simp at h
    | some rec =>
        rw [hl] at h
        simp at h
        simp [h.1]

/-- C2, witness: the amended theorem applied at concrete inputs — a
different id "b" is unaffected by a payload for "a", and the concrete
"progress" payload leaves "a" pending. -/
theorem claim2_witness :
    ("b" ≠ pResultA.call_id ∧
      (applyToolCallPayload [] pResultA).lookup "b" =
        ([] : List (String × StreamingToolCallPart)).lookup "b") ∧
    (pProgressA.event_type ≠ "result" ∧ pProgressA.event_type ≠ "error" ∧
      ((applyToolCallPayload [] pProgressA).lookup pProgressA.call_id).map
        (fun r => r.result) = some none) :=
  ⟨⟨by decide, claim2_monotonic_across_ids.1 [] pResultA "b" (by decide)⟩,
   ⟨by decide, by decide,
     claim2_monotonic_across_ids.2 [] pProgressA (by decide) (by decide)⟩⟩

/-- C3: for every sequence of raw events, possibly repeating call ids, the
reconciled map holds exactly one record per identifier — its key list is
exactly the first-seen order of the delivered ids and has no duplicates;
an event for one id never changes the record (terminal or not) of any
other id; and the concrete example — a "call" for "a" followed by a
"result" with response "42" — reconciles to a single record for "a"
whose terminal result is "42". -/
theorem claim3_one_record_per_identifier :
    (∀ events : List RawStreamEvent,
        mapKeys (applyStreamEvents initAcc events).accumulatedToolCalls =
          firstSeen (eventsIds events) ∧
        (mapKeys (applyStreamEvents initAcc events).accumulatedToolCalls).Nodup) ∧
    (∀ (m : List (String × StreamingToolCallPart)) (p : RawToolCallPayload)
        (id : String), id ≠ p.call_id →
        (applyToolCallPayload m p).lookup id = m.lookup id) ∧
    ((applyStreamEvents initAcc [evCallA, evResultA]).accumulatedToolCalls.length = 1 ∧
      ((applyStreamEvents initAcc [evCallA, evResultA]).accumulatedToolCalls.lookup
          "a").map (fun r => r.result.map (fun x => x.response)) =
        some (some (JsVal.str "42"))) := by
  refine ⟨fun events => ⟨mapKeys_applyStreamEvents_initAcc events, ?_⟩,
    fun m p id h => applyToolCallPayload_lookup_ne m p h, rfl, rfl⟩
  rw [mapKeys_applyStreamEvents_initAcc events]
  exact firstSeenFrom_nodup _ _ List.nodup_nil

/-- C3, witness: the different-identifier part applied at a concrete
input. -/
theorem claim3_witness :
    "b" ≠ pCallA.call_id ∧
    (applyToolCallPayload [] pCallA).lookup "b" =
      ([] : List (String × StreamingToolCallPart)).lookup "b" :=
  ⟨by decide, claim3_one_record_per_identifier.2.1 [] pCallA "b" (by decide)⟩

theorem streamNormalRun_some_yields (steps : List Step) (e : String) :
    (streamNormalRun steps (some e)).yields = (runSteps initGen steps).2 := by
  show (if (runSteps initGen steps).1.aborted = true then
      ({ yields := (runSteps initGen steps).2,
         stopCalls := (runSteps initGen steps).1.stopCalls,
         error := none } : NormalRunOutcome)
    else
      { yields := (runSteps initGen steps).2,
        stopCalls := (runSteps initGen steps).1.stopCalls,
        error := some e }).yields = (runSteps initGen steps).2
  by_cases h : (runSteps initGen steps).1.aborted = true
  · rw [if_pos h]
  · rw [if_neg h]

theorem normalYield_props (y : List ContentPart) (pre : List RawStreamEvent)
    (hy : y = renderNormal (applyStreamEvents initAcc pre)) :
    wellOrdered y = true ∧ toolIdsIn y = firstSeen (eventsIds pre) := by
  subst hy
  refine ⟨wellOrdered_renderNormal _, ?_⟩
  rw [toolIdsIn_renderNormal _
      (idsConsistent_applyStreamEvents pre initAcc idsConsistent_initAcc),
    mapKeys_applyStreamEvents_initAcc]

/-- C4: every `ContentUpdate` yielded to the consumer — at every tick of a
stream and in the settle-phase publishes, in both normal and resume
mode, whether the backend call resolves or rejects — has the shape
[optional reasoning segment, only tool-call records, optional trailing
text segment] (`wellOrdered`), and its tool-call records appear exactly
in first-seen order of the call identifiers delivered by some prefix of
the raw events (for resume mode, under the assumption that payloads
carry truthy call ids and tool names, since `pushToQueue` filters
records with falsy ids or names). -/
theorem claim4_content_update_ordering :
    (∀ (steps : List Step) (err : Option String),
        ∀ y ∈ (streamNormalRun steps err).yields,
          wellOrdered y = true ∧
          ∃ k, toolIdsIn y = firstSeen (eventsIds ((eventsOf steps).take k))) ∧
    (∀ events : List RawStreamEvent, ∀ y ∈ resumeRun events,
        wellOrdered y = true ∧
        ((∀ e ∈ events, eventWF e) →
          ∃ k, toolIdsIn y = firstSeen (eventsIds (events.take k)))) := by
  constructor
  · intro steps err y hy
    have hmem : ∃ k, y =
        renderNormal (applyStreamEvents initAcc ((eventsOf steps).take k)) := by
      cases err with
      | some e =>
          rw [streamNormalRun_some_yields steps e] at hy
          exact yields_render_prefix steps initGen rfl y hy
      | none =>
          rw [streamNormalRun_none_yields steps] at hy
          rcases List.mem_append.mp hy with hy | hy
          · exact yields_render_prefix steps initGen rfl y hy
          · have hyr := postludeYields_mem _ y hy
            rcases acc_prefix steps initGen with ⟨k, hk⟩
            exact ⟨k, by rw [hyr, hk]; rfl⟩
    rcases hmem with ⟨k, hk⟩
    rcases normalYield_props y _ hk with ⟨h1, h2⟩
    exact ⟨h1, ⟨k, h2⟩⟩
  · intro events y hy
    rcases resumeRunFrom_mem events initAcc y hy with ⟨k, hk⟩
    constructor
    · rw [hk]
      exact wellOrdered_renderResume _ _ _
    · intro hwf
      refine ⟨k, ?_⟩
      rw [hk]
      unfold renderResumeState
      rw [toolIdsIn_renderResume _ _ _
          (namesOk_applyStreamEvents _ _ namesOk_initAcc
            (fun e he => hwf e (List.take_subset k events he)))
          (idsConsistent_applyStreamEvents _ initAcc idsConsistent_initAcc),
        mapKeys_applyStreamEvents_initAcc]

/-- C4, witness: the ordering theorem applied to a concrete yielded update
in each mode. -/
theorem claim4_witness :
    (wellOrdered (renderNormal (applyStreamEvents initAcc [evCallA])) = true ∧
      ∃ k, toolIdsIn (renderNormal (applyStreamEvents initAcc [evCallA])) =
        firstSeen (eventsIds ((eventsOf [Step.ev evCallA, Step.tick]).take k))) ∧
    (∃ k, toolIdsIn (renderResumeState (applyStreamEvents initAcc [evCallA])) =
      firstSeen (eventsIds (([evCallA] : List RawStreamEvent).take k))) := by
  constructor
  · exact claim4_content_update_ordering.1 [Step.ev evCallA, Step.tick] none
      (renderNormal (applyStreamEvents initAcc [evCallA]))
      (by
        rw [show (streamNormalRun [Step.ev evCallA, Step.tick] none).yields =
          [renderNormal (applyStreamEvents initAcc [evCallA]),
            renderNormal (applyStreamEvents initAcc [evCallA])] from rfl]
        exact List.mem_cons_self _ _)
  · refine (claim4_content_update_ordering.2 [evCallA]
      (renderResumeState (applyStreamEvents initAcc [evCallA]))
      (by
        rw [show resumeRun [evCallA] =
          [renderResumeState (applyStreamEvents initAcc [evCallA])] from rfl]
        exact List.mem_cons_self _ _)).2 ?_
    intro e he
    rw [List.mem_singleton] at he
    subst he
    intro p hp
    rw [show evCallA.tool_calls = [some pCallA] from rfl, List.mem_singleton] at hp
    have hpe : p = pCallA := Option.some.inj hp
    subst hpe
    exact ⟨by decide, by decide⟩

/-- C5: once the stream has entered the streaming phase (at least one raw
event was received) and was not canceled, the run performs a final
publish of the last known accumulated state when the backend call
settles: the yielded sequence is non-empty and its last element renders
the state accumulated from all delivered events — in normal mode via the
post-settle `hasUpdate` check plus the `hasContent`-guarded final yield,
in resume mode because the queue is drained completely — so the last raw
event is never silently dropped even if it races with completion. -/
theorem claim5_final_publish :
    (∀ steps : List Step, hasAbort steps = false → hasEv steps = true →
        ∃ prev, (streamNormalRun steps none).yields =
          prev ++ [renderNormal (applyStreamEvents initAcc (eventsOf steps))]) ∧
    (∀ events : List RawStreamEvent, events ≠ [] →
        ∃ prev, resumeRun events =
          prev ++ [renderResumeState (applyStreamEvents initAcc events)]) := by
  constructor
  · intro steps ha hev
    rw [streamNormalRun_none_yields steps]
    exact totalYields_last steps initGen ha rfl (Or.inr hev)
  · intro events hne
    exact resumeRunFrom_last events initAcc hne

/-- C5, witness: the final-publish theorem at a one-event schedule in each
mode (the normal-mode schedule has no tick, so the event is published
only by the settle-phase checks). -/
theorem claim5_witness :
    (hasAbort [Step.ev evCallA] = false ∧ hasEv [Step.ev evCallA] = true ∧
      ∃ prev, (streamNormalRun [Step.ev evCallA] none).yields =
        prev ++ [renderNormal (applyStreamEvents initAcc
          (eventsOf [Step.ev evCallA]))]) ∧
    (([evResultA] : List RawStreamEvent) ≠ [] ∧
      ∃ prev, resumeRun [evResultA] =
        prev ++ [renderResumeState (applyStreamEvents initAcc [evResultA])]) :=
  ⟨⟨rfl, rfl, claim5_final_publish.1 [Step.ev evCallA] rfl rfl⟩,
   ⟨by simp, claim5_final_publish.2 [evResultA] (by simp)⟩⟩

/-- C6: if the cancellation signal fires mid-stream (at any point of the
schedule, however the backend call then settles), the run yields no
`ContentUpdate` beyond those already yielded before the abort, the
consumer sees no error (`handleAbort`'s rejection is swallowed by the
aborted-guard and the outer catch), and `ChatService.stopMessage` is
invoked exactly once for the run. -/
theorem claim6_cancellation :
    ∀ (pre post : List Step) (err : Option String),
      (streamNormalRun (pre ++ Step.abort :: post) err).yields =
          (runSteps initGen pre).2 ∧
      (streamNormalRun (pre ++ Step.abort :: post) err).stopCalls = 1 ∧
      (streamNormalRun (pre ++ Step.abort :: post) err).error = none := by
  intro pre post err
  have h1 : runSteps initGen (pre ++ Step.abort :: post) =
      (stepAbort (runSteps initGen pre).1, (runSteps initGen pre).2) := by
    rw [runSteps_append pre (Step.abort :: post) initGen]
    rw [show runSteps (runSteps initGen pre).1 (Step.abort :: post) =
      runSteps (stepAbort (runSteps initGen pre).1) post from rfl]
    rw [runSteps_frozen post _ (stepAbort_aborted _)]
    simp
  have habort : (stepAbort (runSteps initGen pre).1).aborted = true :=
    stepAbort_aborted _
  have hstop : (stepAbort (runSteps initGen pre).1).stopCalls = 1 := by
    have hinv := stopInv_runSteps pre initGen (by decide)
    by_cases h : (runSteps initGen pre).1.aborted = true
    · rw [stepAbort_aborted_of _ h, hinv, if_pos h]
    · have h0 : (runSteps initGen pre).1.stopCalls = 0 := by rw [hinv, if_neg h]
      simp [stepAbort, h, h0]
  cases err with
  | some e =>
      refine ⟨?_, ?_, ?_⟩ <;> simp [streamNormalRun, h1, habort, hstop]
  | none =>
      have htick : stepTick (stepAbort (runSteps initGen pre).1) =
          (stepAbort (runSteps initGen pre).1, []) := stepTick_aborted _ habort
      refine ⟨?_, ?_, ?_⟩ <;> simp [streamNormalRun, h1, htick, habort, hstop]

/-- C7, counterexample: the claim states that a new non-resume run is
rejected before any backend call while `SessionState.isStreaming` is
true. In the code the guard (runtime.ts lines 247-250) reads only
`isBackgroundTaskActiveRef.current`; with the streaming flag raised and
the background flag down, the dispatch succeeds and issues
`ChatService.streamMessage` — it is not rejected. -/
theorem claim7_counterexample :
    runDispatch "c1" none false stStreaming false [userMsgHello] [] =
      .ok { backendCall := .streamMessage "c1" "hello" [] [] none
            resumeRefAfter := none
            streamingAfter := stStreaming } := rfl

/-- C7, amended: a newly requested non-resume run is rejected before any
backend call exactly while the background-task flag (raised for the
duration of a resume run) is active; the `isStreaming` flag of the
per-conversation streaming state is never consulted — dispatch behaves
identically whatever its value. -/
theorem claim7_background_guard :
    (∀ (chatId : String) (st : StreamingState) (multimodal : Bool)
        (messages : List InMessage) (selectedNodes : List JsVal),
        runDispatch chatId none true st multimodal messages selectedNodes =
          .error "Background task is active") ∧
    (∀ (chatId : String) (bg : Bool) (st : StreamingState) (b : Bool)
        (multimodal : Bool) (messages : List InMessage)
        (selectedNodes : List JsVal),
        runDispatch chatId none bg st multimodal messages selectedNodes =
          runDispatch chatId none bg { st with isStreaming := b }
            multimodal messages selectedNodes) := by
  constructor
  · intro chatId st multimodal messages selectedNodes
    rfl
  · intro chatId bg st b multimodal messages selectedNodes
    cases bg with
    | true => rfl
    | false => simp only [runDispatch]

/-- C8: a pending ResumeRequest {sessionId, cursor} is consumed and
cleared in the same dispatch (the ref is `none` afterwards), the backend
resume path is invoked with exactly that conversation id, session id and
cursor, the streaming state is left untouched, and the resume backend
call structurally carries no message text, so the user's original text
is never re-sent. -/
theorem claim8_resume_handoff :
    (∀ (chatId : String) (rs : ResumeSessionInfo) (bg : Bool)
        (st : StreamingState) (multimodal : Bool) (messages : List InMessage)
        (selectedNodes : List JsVal),
        runDispatch chatId (some rs) bg st multimodal messages selectedNodes =
          .ok { backendCall := .resumeWithCursor chatId rs.sessionId rs.cursor
                resumeRefAfter := none
                streamingAfter := st }) ∧
    (∀ chatId sessionId cursor : String,
        carriesMessageText (.resumeWithCursor chatId sessionId cursor) = false) :=
  ⟨fun _ _ _ _ _ _ _ => rfl, fun _ _ _ => rfl⟩

/-- C9, counterexample: the claim states that after any output has been
produced, every `ContentUpdate` carries the response text segment even
when the accumulated text is empty, in both modes. In the normal-mode
renderer (runtime.ts lines 494-496: `...(accumulatedText ? [...] : [])`)
the text segment is omitted while the text is empty: the state reached
after `evCallA` has one tool-call record (output was produced) but its
rendered update holds no text segment at all. -/
theorem claim9_counterexample :
    textSegments (renderNormal sToolNoText) = [] ∧
    sToolNoText.accumulatedToolCalls.length = 1 :=
  ⟨rfl, rfl⟩

/-- C9, amended: in resume mode every `ContentUpdate` ends with the
response text segment, even when the accumulated text is the empty
string; in normal mode the text segment is present exactly when the
accumulated text is non-empty, so a normal-mode update never carries an
empty text segment. -/
theorem claim9_text_segment :
    (∀ (message : String) (m : List (String × StreamingToolCallPart))
        (thinking : Option String),
        ∃ prev, renderResume message m thinking =
          prev ++ [ContentPart.text message]) ∧
    (∀ s : AccState,
        textSegments (renderNormal s) =
          if s.accumulatedText != "" then [s.accumulatedText] else []) :=
  ⟨renderResume_ends_with_text, textSegments_renderNormal⟩

/-- C10: `apiToolCallToPart` sets the error flag to the literal `false`
for every history-loaded tool call — even when the stored event type is
"error" — whereas the live streaming merge marks an "error"-typed
payload's record with the error flag set. -/
theorem claim10_history_isError_false :
    (∀ tc : ToolCall, (apiToolCallToPart tc).isError = some false) ∧
    (∀ (m : List (String × StreamingToolCallPart)) (id n : String) (d r : JsVal),
        ((applyToolCallPayload m
            { call_id := id, tool_name := n, tool_call_details := d,
              event_type := "error", tool_response := r }).lookup id).map
          (fun x => x.isError) = some (some true)) := by
  constructor
  · intro tc
    rfl
  · intro m id n d r
    simp only [applyToolCallPayload, lookup_mapSet_self, Option.map_some]
    simp

end PotpieRuntime
